import Mathlib

/-!
Shallow embedding of the note-taking backend in `src/src-tauri/src/lib.rs`.

Strings are modelled as `List Char` (Rust strings are valid UTF-8 and all
relevant operations — `chars()`, `trim()`, `lines()`, pattern search for
valid-UTF-8 needles — operate at Unicode-scalar granularity, which `Char`
matches; byte-level substring search on valid UTF-8 coincides with
scalar-level search by UTF-8 self-synchronization).  The filesystem is
modelled as an explicit state: a list of directory entries, each carrying
the read result of its content (`none` = unreadable, e.g. a directory) and
its metadata timestamp (`none` = `metadata()` failed).  Filesystem writes
and removals are modelled as succeeding, which is the level at which the
specification speaks.  Scores are modelled as `Nat`: every increment in
`calculate_score` is a positive integer and all sums reached for the
inputs under consideration are exactly representable in `f32`.
-/

/-- Unicode `White_Space` test, mirroring Rust `char::is_whitespace`.
The listed code points are exactly the characters with the Unicode
`White_Space` property. -/
def isRustWhitespace (c : Char) : Bool :=
  let n := c.toNat
  (0x9 ≤ n && n ≤ 0xD) || n = 0x20 || n = 0x85 || n = 0xA0 || n = 0x1680 ||
  (0x2000 ≤ n && n ≤ 0x200A) || n = 0x2028 || n = 0x2029 || n = 0x202F ||
  n = 0x205F || n = 0x3000

/-- Leading-whitespace removal (`str::trim_start`). -/
def rustTrimLeft (s : List Char) : List Char :=
  s.dropWhile isRustWhitespace

/-- Trailing-whitespace removal (`str::trim_end`). -/
def rustTrimRight (s : List Char) : List Char :=
  (s.reverse.dropWhile isRustWhitespace).reverse

/-- Rust `str::trim`: strip leading and trailing Unicode whitespace. -/
def rustTrim (s : List Char) : List Char :=
  rustTrimRight (rustTrimLeft s)

/-- Drop one trailing carriage return, as `str::lines` does on each line
that was terminated by a newline. -/
def stripCR (l : List Char) : List Char :=
  if l.getLast? = some '\r' then l.dropLast else l

/-- Worker for `linesOf`: `acc` holds the current line reversed. -/
def linesGo (acc : List Char) : List Char → List (List Char)
  | [] => [acc.reverse]
  | c :: rest =>
    if c = '\n' then
      stripCR acc.reverse :: (if rest = [] then [] else linesGo [] rest)
    else
      linesGo (c :: acc) rest

/-- Rust `str::lines`: split at `'\n'`, dropping a `'\r'` that immediately
precedes the `'\n'`; a trailing newline does not produce a final empty
line, and the empty string has no lines. -/
def linesOf (s : List Char) : List (List Char) :=
  if s = [] then [] else linesGo [] s

/-- `is_effectively_empty` (lib.rs:93-95): every character is whitespace,
U+00A0 or U+FEFF. -/
def is_effectively_empty (s : List Char) : Bool :=
  s.all fun c => isRustWhitespace c || c.toNat = 0xA0 || c.toNat = 0xFEFF

/-- Scan of `extract_title` (lib.rs:98-112) over the line list: a line
whose trim starts with `"# "` and whose remainder trims to something not
effectively empty yields that trimmed remainder; otherwise a line that is
not effectively empty yields its first 50 characters; otherwise continue. -/
def extractTitleGo : List (List Char) → List Char
  | [] => "Untitled".data
  | line :: rest =>
    let trimmed := rustTrim line
    if ['#', ' '].isPrefixOf trimmed then
      if is_effectively_empty (rustTrim (trimmed.drop 2)) = false then
        rustTrim (trimmed.drop 2)
      else if is_effectively_empty trimmed = false then trimmed.take 50
      else extractTitleGo rest
    else if is_effectively_empty trimmed = false then trimmed.take 50
    else extractTitleGo rest

/-- `extract_title` (lib.rs:98-112). -/
def extract_title (content : List Char) : List Char :=
  extractTitleGo (linesOf content)

/-- Worker for `generate_preview`: first subsequent line that is nonempty
after trim and does not start with `'#'`, truncated to 100 characters. -/
def generatePreviewGo : List (List Char) → List Char
  | [] => []
  | line :: rest =>
    let t := rustTrim line
    if t ≠ [] && t.head? ≠ some '#' then t.take 100 else generatePreviewGo rest

/-- `generate_preview` (lib.rs:115-125): skip the first line, then take the
first nonempty non-heading line truncated to 100 characters; empty string
if none. -/
def generate_preview (content : List Char) : List Char :=
  generatePreviewGo ((linesOf content).drop 1)

/-- `sanitize_filename` (lib.rs:74-90): drop U+00A0 and U+FEFF, replace the
nine forbidden filename characters with `'-'`, trim; if the result is empty
or effectively empty, use `"untitled"`. -/
def sanitize_filename (title : List Char) : List Char :=
  let sanitized :=
    (title.filter fun c => !(c.toNat = 0xA0 || c.toNat = 0xFEFF)).map fun c =>
      match c with
      | '/' | '\\' | ':' | '*' | '?' | '"' | '<' | '>' | '|' => '-'
      | _ => c
  let trimmed := rustTrim sanitized
  if trimmed = [] || is_effectively_empty trimmed then "untitled".data else trimmed

/-- Byte length of a character under UTF-8, for Rust `str::len` on a word. -/
def utf8Size (c : Char) : Nat :=
  if c.toNat < 0x80 then 1
  else if c.toNat < 0x800 then 2
  else if c.toNat < 0x10000 then 3
  else 4

/-- UTF-8 byte length of a string (`str::len`). -/
def utf8Len (s : List Char) : Nat :=
  (s.map utf8Size).sum

/-- Worker for `splitWs`; `acc` holds the current word reversed. -/
def splitWsGo (acc : List Char) : List Char → List (List Char)
  | [] => if acc = [] then [] else [acc.reverse]
  | c :: rest =>
    if isRustWhitespace c then
      if acc = [] then splitWsGo [] rest else acc.reverse :: splitWsGo [] rest
    else
      splitWsGo (c :: acc) rest

/-- Rust `str::split_whitespace`: maximal runs of non-whitespace. -/
def splitWs (s : List Char) : List (List Char) :=
  splitWsGo [] s

/-- Substring test (Rust `str::contains` with a string pattern): does
`needle` occur contiguously inside `hay`?  The empty needle matches. -/
def containsSub (hay needle : List Char) : Bool :=
  if needle.isPrefixOf hay then true
  else
    match hay with
    | [] => false
    | _ :: t => containsSub t needle

/-- ASCII fragment of Rust `str::to_lowercase` on one character.  The full
Unicode lowercase table (which can also expand a character) is outside the
model; the scoring theorems below are proved for an arbitrary lowercase
function, and concrete witnesses use this ASCII fragment. -/
def toLowerChar (c : Char) : Char :=
  if 65 ≤ c.toNat && c.toNat ≤ 90 then Char.ofNat (c.toNat + 32) else c

/-- ASCII-fragment string lowercase. -/
def asciiLower (s : List Char) : List Char :=
  s.map toLowerChar

/-- Fueled decimal rendering worker; the fuel only bounds recursion depth
and any fuel at least the digit count gives the exact decimal digits. -/
def natDigitsGo : Nat → Nat → List Char
  | 0, _ => []
  | fuel + 1, n =>
    if n = 0 then [] else natDigitsGo fuel (n / 10) ++ [Char.ofNat (48 + n % 10)]

/-- Decimal rendering of a natural number, as Rust `format!` prints an
integer counter. -/
def natToString (n : Nat) : List Char :=
  if n = 0 then ['0'] else natDigitsGo n n

/-- The `".md"` suffix appended to note ids to form file names. -/
def mdExt : List Char := ".md".data

/-- Candidate id number `k ≥ 1` in the collision loop of `save_note`
(lib.rs:299-302) and `create_note` (lib.rs:351-354):
`format!("{}-{}", base_id, counter)`. -/
def candS (base : List Char) (k : Nat) : List Char :=
  base ++ '-' :: natToString k

/-- Candidate number `j ≥ 0`, where candidate 0 is the base id itself. -/
def candAt (base : List Char) : Nat → List Char
  | 0 => base
  | j + 1 => candS base (j + 1)

/-- The collision `while` loop shared by `save_note` and `create_note`:
`current` is the id under test, and the list holds the successive values of
`counter`.  Running it on `List.range' 1 fuel` mirrors `counter = 1; while
exists(current) { current = base-counter; counter += 1 }`, with `none` when
the modelled fuel runs out (shown unreachable for the stores below). -/
def allocGo (base : List Char) (ex : List Char → Bool) :
    List Char → List Nat → Option (List Char)
  | current, [] => if ex current then none else some current
  | current, c :: cs =>
    if ex current then allocGo base ex (candS base c) cs else some current

/-- Unique-id allocation: try `base`, then `base-1`, `base-2`, …, returning
the first candidate on which `ex` is false. -/
def allocateId (base : List Char) (ex : List Char → Bool) (fuel : Nat) :
    Option (List Char) :=
  allocGo base ex base (List.range' 1 fuel)

/-- `Settings` (lib.rs:31-35). -/
structure Settings where
  notes_folder : Option (List Char)
  theme : List Char
deriving DecidableEq

/-- `Settings::default()` as produced by `#[derive(Default)]` on lib.rs:31:
`Option::default()` is `None` and `String::default()` is the empty
string. -/
def settingsDerivedDefault : Settings :=
  { notes_folder := none, theme := [] }

/-- The settings constructed by `impl Default for AppState`
(lib.rs:60-71), which spell the intended defaults explicitly:
`notes_folder: None, theme: "system"`. -/
def appStateDefaultSettings : Settings :=
  { notes_folder := none, theme := "system".data }

/-- Outcome of the filesystem interactions inside `load_settings`
(lib.rs:135-149): the settings path may fail to resolve, the file may be
absent, reading may fail, or reading succeeds and `serde_json::from_str`
either fails (`none`) or yields settings. -/
inductive SettingsLoadInput where
  | pathError
  | absent
  | readError
  | readOk (parsed : Option Settings)

/-- `load_settings` (lib.rs:135-149): every failure path returns
`Settings::default()`; only a successful parse is used. -/
def load_settings : SettingsLoadInput → Settings
  | .pathError => settingsDerivedDefault
  | .absent => settingsDerivedDefault
  | .readError => settingsDerivedDefault
  | .readOk none => settingsDerivedDefault
  | .readOk (some s) => s

/-- Body of the word loop of `calculate_score` (lib.rs:415-425): skip a
word of byte length < 2, otherwise add 20 for a title occurrence and 5
for a content occurrence. -/
def scoreStep (title_lower content_lower : List Char)
    (score : Nat) (word : List Char) : Nat :=
  if utf8Len word < 2 then score
  else
    let score := if containsSub title_lower word then score + 20 else score
    if containsSub content_lower word then score + 5 else score

/-- `calculate_score` (lib.rs:394-428), parametric in the lowercase
function `lower` used for `to_lowercase`.  The title-level bonus is the
`if`/`else if` chain and the word loop folds `scoreStep` over
`query_lower.split_whitespace()`. -/
def calculate_score (lower : List Char → List Char)
    (query title content : List Char) : Nat :=
  let query_lower := lower query
  let title_lower := lower title
  let content_lower := lower content
  let base : Nat :=
    if title_lower = query_lower then 100
    else if containsSub title_lower query_lower then 50
    else if query_lower.isPrefixOf title_lower then 40
    else 0
  (splitWs query_lower).foldl (scoreStep title_lower content_lower) base

/-- One directory entry of the notes folder as the code observes it:
its file name, the result of `fs::read_to_string` (`none` when unreadable,
e.g. for a subdirectory), and the modification timestamp in seconds as
computed from `entry.metadata()` (`none` when `metadata()` fails). -/
structure DirEntry where
  name : List Char
  content : Option (List Char)
  modified : Option Int
deriving DecidableEq

/-- The state the commands operate on: the `notes_folder` setting, whether
that folder path exists, the result of `fs::read_dir` (`some` message when
it fails), the directory entries in OS order, and the wall-clock second at
which any write in the modelled step is stamped. -/
structure NotesState where
  folder : Option (List Char)
  folderExists : Bool
  readDirErr : Option (List Char)
  entries : List DirEntry
  nowSecs : Int
deriving DecidableEq

/-- The error string of every command when no notes folder is set
(`"Notes folder not set"`). -/
def noFolderMsg : List Char := "Notes folder not set".data

/-- Placeholder for an OS error string surfaced through
`map_err(|e| e.to_string())`; no claim inspects its text. -/
def ioErrMsg : List Char := "io error".data

/-- First directory entry with the given file name. -/
def findFile (st : NotesState) (name : List Char) : Option DirEntry :=
  st.entries.find? fun e => decide (e.name = name)

/-- `Path::exists` for `{folder}/{name}`: some entry carries that name. -/
def hasFile (st : NotesState) (name : List Char) : Bool :=
  (findFile st name).isSome

/-- `fs::write` of `{folder}/{name}`: upsert the entry, stamping the
state's current wall-clock second as its modification time. -/
def writeFile (st : NotesState) (name content : List Char) : NotesState :=
  if hasFile st name then
    { st with
      entries := st.entries.map fun e =>
        if e.name = name then
          { e with content := some content, modified := some st.nowSecs }
        else e }
  else
    { st with
      entries := st.entries ++ [⟨name, some content, some st.nowSecs⟩] }

/-- `fs::remove_file` of `{folder}/{name}`. -/
def removeFile (st : NotesState) (name : List Char) : NotesState :=
  { st with entries := st.entries.filter fun e => decide (e.name ≠ name) }

/-- Rust `Path::extension` on a bare file name: the portion after the last
`'.'`, unless there is no `'.'` or the only interpretation would leave an
empty stem (a leading-dot hidden file). -/
def extOf (name : List Char) : Option (List Char) :=
  let pre := name.reverse.takeWhile fun c => c ≠ '.'
  if pre.length = name.length then none
  else if pre.length + 1 = name.length then none
  else some pre.reverse

/-- Rust `Path::file_stem` on a bare file name. -/
def stemOf (name : List Char) : List Char :=
  let pre := name.reverse.takeWhile fun c => c ≠ '.'
  if pre.length = name.length then name
  else if pre.length + 1 = name.length then name
  else name.take (name.length - pre.length - 1)

/-- The listing/search/watcher extension test:
`path.extension().map_or(false, |ext| ext == "md")` — case-sensitive. -/
def isMdName (name : List Char) : Bool :=
  extOf name = some "md".data

/-- Platform path join `{folder}/{name}` as displayed by
`to_string_lossy` (claims do not depend on the separator). -/
def joinPath (folder name : List Char) : List Char :=
  folder ++ '/' :: name

deriving instance DecidableEq for Except

/-- `NoteMetadata` (lib.rs:12-18). -/
structure NoteMetadata where
  id : List Char
  title : List Char
  preview : List Char
  modified : Int
deriving DecidableEq

/-- `Note` (lib.rs:21-28). -/
structure Note where
  id : List Char
  title : List Char
  content : List Char
  path : List Char
  modified : Int
deriving DecidableEq

/-- `SearchResult` (lib.rs:38-45); the score is modelled as `Nat`. -/
structure SearchResult where
  id : List Char
  title : List Char
  preview : List Char
  modified : Int
  score : Nat
deriving DecidableEq

/-- The body of the `list_notes` loop (lib.rs:205-232) for one entry:
`.md` extension, then readable content, then successful metadata; `none`
means the entry is skipped. -/
def listEntry (e : DirEntry) : Option NoteMetadata :=
  if isMdName e.name then
    match e.content with
    | some content =>
      match e.modified with
      | some m =>
        some ⟨stemOf e.name, extract_title content, generate_preview content, m⟩
      | none => none
    | none => none
  else none

/-- Body of the collection loops of `list_notes` and `search_notes`: push
the produced element, skip otherwise. -/
def collectStep {B : Type} (f : DirEntry → Option B) (acc : List B)
    (e : DirEntry) : List B :=
  match f e with
  | some x => acc ++ [x]
  | none => acc

/-- Descending-`modified` order used by `list_notes`' `sort_by`
(lib.rs:235): `a` may precede `b` when `b.modified ≤ a.modified`. -/
def modifiedGE (a b : NoteMetadata) : Prop :=
  b.modified ≤ a.modified

instance : DecidableRel modifiedGE := fun a b => by
  unfold modifiedGE; infer_instance

instance : IsTotal NoteMetadata modifiedGE :=
  ⟨fun a b => le_total b.modified a.modified⟩

instance : IsTrans NoteMetadata modifiedGE :=
  ⟨fun _ _ _ h h' => le_trans h' h⟩

/-- `list_notes` (lib.rs:193-247).  `Vec::sort_by` is a stable sort;
`List.insertionSort` is stable, hence produces the identical list.  The
cache update has no observable effect on the returned value and is not
modelled. -/
def list_notes (st : NotesState) : Except (List Char) (List NoteMetadata) :=
  match st.folder with
  | none => .error noFolderMsg
  | some _ =>
    if st.folderExists = false then .ok []
    else
      match st.readDirErr with
      | some e => .error e
      | none =>
        .ok ((st.entries.foldl (collectStep listEntry) []).insertionSort modifiedGE)

/-- `read_note` (lib.rs:249-276). -/
def read_note (id : List Char) (st : NotesState) : Except (List Char) Note :=
  match st.folder with
  | none => .error noFolderMsg
  | some folder =>
    match findFile st (id ++ mdExt) with
    | none => .error "Note not found".data
    | some e =>
      match e.content with
      | none => .error ioErrMsg
      | some content =>
        match e.modified with
        | none => .error ioErrMsg
        | some m =>
          .ok ⟨id, extract_title content, content, joinPath folder (id ++ mdExt), m⟩

/-- `save_note` (lib.rs:278-325).  When no id is supplied, the collision
loop allocates one starting from the sanitized title; the fuel
`st.entries.length + 1` is shown sufficient below (the real loop is
unbounded and terminates because the folder is finite).  The freshly read
modification time of the written file is the state's current second. -/
def save_note (idOpt : Option (List Char)) (content : List Char)
    (st : NotesState) : Except (List Char) (Note × NotesState) :=
  match st.folder with
  | none => .error noFolderMsg
  | some folder =>
    match (match idOpt with
           | some existingId => some existingId
           | none =>
             allocateId (sanitize_filename (extract_title content))
               (fun cand => hasFile st (cand ++ mdExt)) (st.entries.length + 1)) with
    | none => .error "id allocation fuel exhausted".data
    | some noteId =>
      .ok (⟨noteId, extract_title content, content,
            joinPath folder (noteId ++ mdExt), st.nowSecs⟩,
           writeFile st (noteId ++ mdExt) content)

/-- `delete_note` (lib.rs:327-338): remove the file only if it exists;
always `Ok` once a folder is configured. -/
def delete_note (id : List Char) (st : NotesState) :
    Except (List Char) NotesState :=
  match st.folder with
  | none => .error noFolderMsg
  | some _ =>
    if hasFile st (id ++ mdExt) then .ok (removeFile st (id ++ mdExt))
    else .ok st

/-- `create_note` (lib.rs:340-373): allocate from base `"untitled"`, write
the canned template, and report the current wall-clock time. -/
def create_note (st : NotesState) : Except (List Char) (Note × NotesState) :=
  match st.folder with
  | none => .error noFolderMsg
  | some folder =>
    match allocateId "untitled".data
        (fun cand => hasFile st (cand ++ mdExt)) (st.entries.length + 1) with
    | none => .error "id allocation fuel exhausted".data
    | some finalId =>
      let content := "# Untitled\n\n".data
      let st' := writeFile st (finalId ++ mdExt) content
      .ok (⟨finalId, "Untitled".data, content, joinPath folder (finalId ++ mdExt),
            st.nowSecs⟩, st')

/-- The body of the `search_notes` loop (lib.rs:447-480) for one entry:
`.md` extension, readable content, positive score, then successful
metadata. -/
def searchEntry (query : List Char) (e : DirEntry) : Option SearchResult :=
  if isMdName e.name then
    match e.content with
    | some content =>
      if 0 < calculate_score asciiLower query (extract_title content) content then
        match e.modified with
        | some m =>
          some ⟨stemOf e.name, extract_title content, generate_preview content, m,
                calculate_score asciiLower query (extract_title content) content⟩
        | none => none
      else none
    | none => none
  else none

/-- Descending-score order used by `search_notes`' `sort_by`
(lib.rs:483). -/
def scoreGE (a b : SearchResult) : Prop :=
  b.score ≤ a.score

instance : DecidableRel scoreGE := fun a b => by
  unfold scoreGE; infer_instance

instance : IsTotal SearchResult scoreGE :=
  ⟨fun a b => le_total b.score a.score⟩

instance : IsTrans SearchResult scoreGE :=
  ⟨fun _ _ _ h h' => le_trans h' h⟩

/-- `search_notes` (lib.rs:430-489): empty trimmed query short-circuits to
`Ok(vec![])` before the folder is consulted; then folder check, path
existence, directory read, per-entry scoring, stable descending sort, and
truncation to 20. -/
def search_notes (query : List Char) (st : NotesState) :
    Except (List Char) (List SearchResult) :=
  if rustTrim query = [] then .ok []
  else
    match st.folder with
    | none => .error noFolderMsg
    | some _ =>
      if st.folderExists = false then .ok []
      else
        match st.readDirErr with
        | some e => .error e
        | none =>
          .ok (((st.entries.foldl (collectStep (searchEntry query)) []).insertionSort
            scoreGE).take 20)

/-- The raw `notify::EventKind` as far as the watcher callback
distinguishes it (lib.rs:520-525): the three classified families and
everything else. -/
inductive RawKind where
  | create
  | modify
  | remove
  | other
deriving DecidableEq

/-- Classification of lib.rs:520-525; `none` is the `_ => continue` arm. -/
def classify : RawKind → Option (List Char)
  | .create => some "created".data
  | .modify => some "modified".data
  | .remove => some "deleted".data
  | .other => none

/-- The `file-change` payload (lib.rs:492-496). -/
structure FileChangeEvent where
  kind : List Char
  path : List Char
deriving DecidableEq

/-- The debounce map of `setup_file_watcher` (lib.rs:501): path to the
instant (in milliseconds) recorded for it.  `HashMap::insert` is modelled
by consing, with lookup returning the most recent binding. -/
abbrev DebMap : Type := List (List Char × Nat)

/-- `map.get(path)` on the modelled debounce map. -/
def lookupD (m : DebMap) (p : List Char) : Option Nat :=
  (List.find? (fun e => decide (e.1 = p)) m).map (·.2)

/-- The per-path body of the watcher callback (lib.rs:508-534) at instant
`now` (milliseconds): skip non-`.md` paths; suppress when a recorded
instant for the path is less than 500 ms old; otherwise record `now` and
emit the classified event, or nothing when the kind classifies to nothing
(the recording happens before classification in the source).
`Instant` subtraction is saturating, matching `Nat` subtraction. -/
def watchStep (kind : RawKind) (path : List Char) (now : Nat) (m : DebMap) :
    DebMap × List FileChangeEvent :=
  if isMdName path = false then (m, [])
  else
    let suppressed :=
      match lookupD m path with
      | some last => decide (now - last < 500)
      | none => false
    if suppressed then (m, [])
    else
      let m' : DebMap := (path, now) :: m
      match classify kind with
      | some k => (m', [⟨k, path⟩])
      | none => (m', [])

example : natToString 12 = "12".data := by decide
example : candS "untitled".data 2 = "untitled-2".data := by decide
example : extOf "a.md".data = some "md".data := by decide
example : extOf ".md".data = none := by decide
example : extOf "a.MD".data = some "MD".data := by decide
example : isMdName "a.MD".data = false := by decide
example : stemOf "a.b.md".data = "a.b".data := by decide
example : rustTrim "  a b  ".data = "a b".data := by decide
example : linesOf "a\r\nb\nc".data = ["a".data, "b".data, "c".data] := by decide
example : linesOf "\n".data = [[]] := by decide
example : linesOf "".data = [] := by decide
example : extract_title "# Hello".data = "Hello".data := by decide
example : extract_title "x\n# Hello".data = "x".data := by decide
example : extract_title "\n \n  \n".data = "Untitled".data := by decide
example : generate_preview "# Foo\n\nbar".data = "bar".data := by decide
example : sanitize_filename "a/b:c".data = "a-b-c".data := by decide
example : sanitize_filename "   ".data = "untitled".data := by decide
example : splitWs " ab  c ".data = ["ab".data, "c".data] := by decide
example : containsSub "a   b".data "   ".data = true := by decide
example : asciiLower "AbC".data = "abc".data := by decide

example :
    create_note ⟨some "f".data, true, none,
      [⟨"untitled.md".data, some "# Untitled\n\n".data, some 1⟩,
       ⟨"untitled-1.md".data, some "x".data, some 2⟩], 9⟩ =
    .ok (⟨"untitled-2".data, "Untitled".data, "# Untitled\n\n".data,
          "f/untitled-2.md".data, 9⟩,
         ⟨some "f".data, true, none,
          [⟨"untitled.md".data, some "# Untitled\n\n".data, some 1⟩,
           ⟨"untitled-1.md".data, some "x".data, some 2⟩,
           ⟨"untitled-2.md".data, some "# Untitled\n\n".data, some 9⟩], 9⟩) := by
  decide

example :
    search_notes "   ".data
      ⟨some "f".data, true, none, [⟨"n.md".data, some "a   b".data, some 5⟩], 0⟩ =
    .ok [] := by decide

example :
    calculate_score asciiLower "   ".data
      (extract_title "a   b".data) "a   b".data = 50 := by decide

example :
    search_notes "shop".data
      ⟨some "f".data, true, none,
       [⟨"r.md".data, some "Recipe Book".data, some 1⟩,
        ⟨"s.md".data, some "Shopping List".data, some 2⟩], 0⟩ =
    .ok [⟨"s".data, "Shopping List".data, [], 2, 75⟩] := by decide

example :
    list_notes
      ⟨some "f".data, true, none,
       [⟨"a.md".data, some "A".data, some 5⟩,
        ⟨"b.txt".data, some "B".data, some 9⟩,
        ⟨"c.md".data, none, some 9⟩,
        ⟨"d.md".data, some "D".data, some 7⟩], 0⟩ =
    .ok [⟨"d".data, "D".data, [], 7⟩, ⟨"a".data, "A".data, [], 5⟩] := by decide

example :
    watchStep .modify "a.md".data 1000 [] =
    ([("a.md".data, 1000)], [⟨"modified".data, "a.md".data⟩]) := by decide

example : watchStep .modify "a.md".data 1400 [("a.md".data, 1000)] =
    ([("a.md".data, 1000)], []) := by decide

example : watchStep .other "a.md".data 1000 [] =
    ([("a.md".data, 1000)], []) := by decide

/-! General lemmas about the embedded primitives. -/

theorem allocGo_of_ex_false {base : List Char} {ex : List Char → Bool}
    {current : List Char} (l : List Nat) (h : ex current = false) :
    allocGo base ex current l = some current := by
  cases l <;> simp [allocGo, h]

theorem allocGo_exact {base : List Char} {ex : List Char → Bool} :
    ∀ (fuel i k : Nat), i < k → k ≤ i + fuel →
      (∀ j, i ≤ j → j < k → ex (candAt base j) = true) →
      ex (candAt base k) = false →
      allocGo base ex (candAt base i) (List.range' (i + 1) fuel) =
        some (candAt base k) := by
  intro fuel
  induction fuel with
  | zero => intro i k hik hk _ _; omega
  | succ fuel ih =>
    intro i k hik hk hall hfree
    have hcur : ex (candAt base i) = true := hall i le_rfl hik
    have hstep : List.range' (i + 1) (fuel + 1) = (i + 1) :: List.range' (i + 2) fuel := by
      simp [List.range'_succ]
    rw [hstep]
    show (if ex (candAt base i) then
        allocGo base ex (candS base (i + 1)) (List.range' (i + 2) fuel)
      else some (candAt base i)) = some (candAt base k)
    rw [if_pos hcur]
    have hcand : candS base (i + 1) = candAt base (i + 1) := rfl
    rw [hcand]
    rcases Nat.lt_or_ge (i + 1) k with hlt | hge
    · exact ih (i + 1) k hlt (by omega) (fun j h1 h2 => hall j (by omega) h2) hfree
    · have : k = i + 1 := by omega
      subst this
      exact allocGo_of_ex_false _ hfree

theorem allocGo_none_all {base : List Char} {ex : List Char → Bool} :
    ∀ (fuel i : Nat),
      allocGo base ex (candAt base i) (List.range' (i + 1) fuel) = none →
      ∀ j, i ≤ j → j ≤ i + fuel → ex (candAt base j) = true := by
  intro fuel
  induction fuel with
  | zero =>
    intro i h j h1 h2
    have hj : j = i := by omega
    subst hj
    by_contra hex
    rw [allocGo_of_ex_false _ (Bool.eq_false_iff.mpr hex)] at h
    exact Option.some_ne_none _ h
  | succ fuel ih =>
    intro i h j h1 h2
    have hstep : List.range' (i + 1) (fuel + 1) = (i + 1) :: List.range' (i + 2) fuel := by
      simp [List.range'_succ]
    rw [hstep] at h
    have hsh : (if ex (candAt base i) then
        allocGo base ex (candS base (i + 1)) (List.range' (i + 2) fuel)
      else some (candAt base i)) = none := h
    by_cases hcur : ex (candAt base i) = true
    · rw [if_pos hcur] at hsh
      rcases Nat.eq_or_lt_of_le h1 with hj | hj
      · exact hj ▸ hcur
      · exact ih (i + 1) hsh j hj (by omega)
    · rw [if_neg hcur] at hsh
      exact absurd hsh (Option.some_ne_none _)

theorem allocGo_some_not_ex {base : List Char} {ex : List Char → Bool} :
    ∀ (l : List Nat) (current found : List Char),
      allocGo base ex current l = some found → ex found = false := by
  intro l
  induction l with
  | nil =>
    intro current found h
    by_cases hc : ex current = true
    · simp [allocGo, hc] at h
    · simp [allocGo, Bool.eq_false_iff.mpr hc] at h
      subst h
      exact Bool.eq_false_iff.mpr hc
  | cons c cs ih =>
    intro current found h
    by_cases hc : ex current = true
    · simp [allocGo, hc] at h
      exact ih _ _ h
    · simp [allocGo, Bool.eq_false_iff.mpr hc] at h
      subst h
      exact Bool.eq_false_iff.mpr hc

theorem allocateId_spec (base : List Char) (ex : List Char → Bool)
    (fuel k : Nat) (hk : k ≤ fuel)
    (hall : ∀ j, j < k → ex (candAt base j) = true)
    (hfree : ex (candAt base k) = false) :
    allocateId base ex fuel = some (candAt base k) := by
  unfold allocateId
  cases k with
  | zero => exact allocGo_of_ex_false _ hfree
  | succ k =>
    have : base = candAt base 0 := rfl
    rw [this]
    exact allocGo_exact fuel 0 (k + 1) (by omega) (by omega)
      (fun j _ h2 => hall j h2) hfree

theorem hasFile_iff (st : NotesState) (name : List Char) :
    hasFile st name = true ↔ ∃ e ∈ st.entries, e.name = name := by
  unfold hasFile findFile
  rw [Option.isSome_iff_exists]
  constructor
  · rintro ⟨e, he⟩
    have hp := List.find?_some he
    exact ⟨e, List.mem_of_find?_eq_some he, of_decide_eq_true hp⟩
  · rintro ⟨e, hmem, hname⟩
    have : (List.find? (fun e => decide (e.name = name)) st.entries).isSome := by
      rw [List.find?_isSome]
      exact ⟨e, hmem, decide_eq_true hname⟩
    rwa [Option.isSome_iff_exists] at this

theorem hasFile_removeFile (st : NotesState) (name : List Char) :
    hasFile (removeFile st name) name = false := by
  by_contra h
  have h' : hasFile (removeFile st name) name = true := by
    cases hh : hasFile (removeFile st name) name
    · exact absurd hh h
    · rfl
  rcases (hasFile_iff _ _).mp h' with ⟨e, hmem, hname⟩
  rcases List.mem_filter.mp hmem with ⟨_, hdec⟩
  exact (of_decide_eq_true hdec) hname

theorem removeFile_folder (st : NotesState) (name : List Char) :
    (removeFile st name).folder = st.folder := rfl

theorem writeFile_folder (st : NotesState) (name content : List Char) :
    (writeFile st name content).folder = st.folder := by
  unfold writeFile
  split <;> rfl

/-- C1.  The claim says `load_settings` falls back to defaults with
`theme = "system"`.  On the failing inputs (settings file absent, or
content whose parse fails) the code returns `Settings::default()`, whose
`#[derive(Default)]` theme is the empty string — while the same file's
`impl Default for AppState` spells the intended default `"system"`.
The claim (and spec) state the intent; the derived default contradicts it. -/
theorem load_settings_fallback_theme_is_empty :
    (load_settings .absent).notes_folder = none ∧
    (load_settings .absent).theme = [] ∧
    (load_settings (.readOk none)).theme = [] ∧
    (load_settings .readError).theme = [] ∧
    (load_settings .absent).theme ≠ "system".data ∧
    appStateDefaultSettings.theme = "system".data := by
  refine ⟨rfl, rfl, rfl, rfl, ?_, rfl⟩
  decide

/-- C6 (confirmed).  Unique-id allocation returns the base id when it does
not collide (`k = 0`), and otherwise the first candidate `base-1`,
`base-2`, … that does not collide (the first `k` with `ex (candAt base k)`
false, all earlier candidates colliding); and concretely, `create_note`
against a folder holding exactly `untitled.md` and `untitled-1.md`
allocates `untitled-2`. -/
theorem allocate_unique_id_first_free :
    (∀ (base : List Char) (ex : List Char → Bool) (fuel k : Nat),
       k ≤ fuel →
       (∀ j, j < k → ex (candAt base j) = true) →
       ex (candAt base k) = false →
       allocateId base ex fuel = some (candAt base k)) ∧
    (∃ n st', create_note ⟨some "f".data, true, none,
        [⟨"untitled.md".data, some "# Untitled\n\n".data, some 1⟩,
         ⟨"untitled-1.md".data, some "x".data, some 2⟩], 9⟩ = .ok (n, st') ∧
       n.id = "untitled-2".data) := by
  constructor
  · exact fun base ex fuel k hk hall hfree => allocateId_spec base ex fuel k hk hall hfree
  · refine ⟨⟨"untitled-2".data, "Untitled".data, "# Untitled\n\n".data,
      "f/untitled-2.md".data, 9⟩,
      ⟨some "f".data, true, none,
        [⟨"untitled.md".data, some "# Untitled\n\n".data, some 1⟩,
         ⟨"untitled-1.md".data, some "x".data, some 2⟩,
         ⟨"untitled-2.md".data, some "# Untitled\n\n".data, some 9⟩], 9⟩, ?_, rfl⟩
    decide

/-- Witness for C6: with existing ids `untitled` and `untitled-1`, base
`untitled` resolves to `untitled-2` (a concrete instantiation of the
general first-free statement at `k = 2`). -/
theorem allocate_unique_id_first_free_witness :
    allocateId "untitled".data
      (fun id => decide (id = "untitled".data ∨ id = "untitled-1".data)) 3 =
      some "untitled-2".data := by
  have h := allocate_unique_id_first_free.1 "untitled".data
    (fun id => decide (id = "untitled".data ∨ id = "untitled-1".data)) 3 2
    (by omega)
    (by
      intro j hj
      match j, hj with
      | 0, _ => decide
      | 1, _ => decide)
    (by decide)
  exact h.trans (by decide)

/-- C7 (confirmed).  With a notes folder configured, `delete_note` always
succeeds: it removes the file named by the id when present (keeping every
other entry) and is a no-op success when absent; consequently a second
delete of the same id also succeeds. -/
theorem delete_note_idempotent :
    ∀ (st : NotesState) (id folder : List Char), st.folder = some folder →
      (∃ st', delete_note id st = .ok st' ∧
         hasFile st' (id ++ mdExt) = false ∧
         st'.folder = st.folder ∧
         ∀ e ∈ st.entries, e.name ≠ id ++ mdExt → e ∈ st'.entries) ∧
      (∀ st', delete_note id st = .ok st' →
         ∃ st'', delete_note id st' = .ok st'') := by
  intro st id folder hf
  have hmain : ∀ (s : NotesState), s.folder = some folder →
      ∃ s', delete_note id s = .ok s' ∧
        hasFile s' (id ++ mdExt) = false ∧
        s'.folder = s.folder ∧
        ∀ e ∈ s.entries, e.name ≠ id ++ mdExt → e ∈ s'.entries := by
    intro s hsf
    have hdel : delete_note id s =
        (if hasFile s (id ++ mdExt) then .ok (removeFile s (id ++ mdExt))
         else .ok s) := by
      unfold delete_note
      rw [hsf]
    by_cases hex : hasFile s (id ++ mdExt) = true
    · refine ⟨removeFile s (id ++ mdExt), by rw [hdel, if_pos hex],
        hasFile_removeFile _ _, removeFile_folder _ _, ?_⟩
      intro e hmem hne
      exact List.mem_filter.mpr ⟨hmem, decide_eq_true hne⟩
    · have hex' : hasFile s (id ++ mdExt) = false := by
        cases hh : hasFile s (id ++ mdExt)
        · rfl
        · exact absurd hh hex
      exact ⟨s, by rw [hdel, if_neg hex], hex', rfl, fun e hmem _ => hmem⟩
  refine ⟨hmain st hf, ?_⟩
  intro st' h'
  have hfold : st'.folder = some folder := by
    rcases hmain st hf with ⟨s', hs', _, hsf', _⟩
    rw [hs'] at h'
    cases h'
    rw [hsf', hf]
  rcases hmain st' hfold with ⟨s'', hs'', _, _, _⟩
  exact ⟨s'', hs''⟩

/-- Witness for C7 at a concrete state holding `a.md`: both conjuncts of
the theorem instantiated, hypotheses discharged by `rfl`. -/
theorem delete_note_idempotent_witness :
    (∃ st', delete_note "a".data
        ⟨some "f".data, true, none, [⟨"a.md".data, some "A".data, some 1⟩], 0⟩ =
        .ok st' ∧
      hasFile st' ("a".data ++ mdExt) = false ∧
      st'.folder = (⟨some "f".data, true, none,
        [⟨"a.md".data, some "A".data, some 1⟩], 0⟩ : NotesState).folder ∧
      ∀ e ∈ (⟨some "f".data, true, none,
          [⟨"a.md".data, some "A".data, some 1⟩], 0⟩ : NotesState).entries,
        e.name ≠ "a".data ++ mdExt → e ∈ st'.entries) ∧
    (∀ st', delete_note "a".data
        ⟨some "f".data, true, none, [⟨"a.md".data, some "A".data, some 1⟩], 0⟩ =
        .ok st' →
      ∃ st'', delete_note "a".data st' = .ok st'') :=
  delete_note_idempotent
    ⟨some "f".data, true, none, [⟨"a.md".data, some "A".data, some 1⟩], 0⟩
    "a".data "f".data rfl

theorem rustTrimRight_eq_nil_iff (l : List Char) :
    rustTrimRight l = [] ↔ ∀ c ∈ l, isRustWhitespace c = true := by
  unfold rustTrimRight
  rw [List.reverse_eq_nil_iff, List.dropWhile_eq_nil_iff]
  constructor
  · intro h c hc
    exact h c (List.mem_reverse.mpr hc)
  · intro h c hc
    exact h c (List.mem_reverse.mp hc)

theorem rustTrim_eq_nil_iff (l : List Char) :
    rustTrim l = [] ↔ ∀ c ∈ l, isRustWhitespace c = true := by
  unfold rustTrim rustTrimLeft
  rw [rustTrimRight_eq_nil_iff]
  constructor
  · intro h c hc
    by_cases hw : isRustWhitespace c = true
    · exact hw
    · have hmem : c ∈ l.dropWhile isRustWhitespace := by
        have hsplit := List.takeWhile_append_dropWhile (p := isRustWhitespace) (l := l)
        rcases List.mem_append.mp (hsplit ▸ hc) with hmem | hmem
        · exact absurd (List.mem_takeWhile_imp hmem) hw
        · exact hmem
      exact h c hmem
  · intro h c hc
    exact h c (List.dropWhile_sublist isRustWhitespace |>.mem hc)

/-- C10 (confirmed).  A query consisting entirely of whitespace — the empty
query included — makes `search_notes` return `Ok([])` before the settings
are consulted, so it succeeds even with no folder configured; any query
containing a non-whitespace character with no folder configured fails with
the `"Notes folder not set"` error. -/
theorem search_notes_whitespace_query_precedes_folder_check :
    (∀ (q : List Char) (st : NotesState),
       (∀ c ∈ q, isRustWhitespace c = true) → search_notes q st = .ok []) ∧
    (∀ (q : List Char) (st : NotesState), st.folder = none →
       ¬(∀ c ∈ q, isRustWhitespace c = true) →
       search_notes q st = .error noFolderMsg) := by
  constructor
  · intro q st h
    unfold search_notes
    rw [if_pos ((rustTrim_eq_nil_iff q).mpr h)]
  · intro q st hf h
    unfold search_notes
    rw [if_neg (fun hnil => h ((rustTrim_eq_nil_iff q).mp hnil)), hf]

/-- Witness for C10: the single-letter query `"a"` with no folder
configured fails with the no-folder error, and the whitespace query `" "`
succeeds with the empty result on the same folderless state. -/
theorem search_notes_whitespace_query_precedes_folder_check_witness :
    search_notes "a".data ⟨none, false, none, [], 0⟩ = .error noFolderMsg ∧
    search_notes " ".data ⟨none, false, none, [], 0⟩ = .ok [] :=
  ⟨search_notes_whitespace_query_precedes_folder_check.2 "a".data
      ⟨none, false, none, [], 0⟩ rfl (by decide),
   search_notes_whitespace_query_precedes_folder_check.1 " ".data
      ⟨none, false, none, [], 0⟩ (by decide)⟩

/-- Claim C5 as stated, formalized over the per-path watcher step: for a
`.md` path, when the recorded time for that exact path is less than 500 ms
old the event is suppressed with the map unchanged, and OTHERWISE the
current time is recorded and exactly one classified event is emitted. -/
def watcherClaimC5 : Prop :=
  ∀ (kind : RawKind) (path : List Char) (now : Nat) (m : DebMap),
    isMdName path = true →
    ((∃ last, lookupD m path = some last ∧ now - last < 500) →
       watchStep kind path now m = (m, [])) ∧
    ((∀ last, lookupD m path = some last → 500 ≤ now - last) →
       lookupD (watchStep kind path now m).1 path = some now ∧
       (watchStep kind path now m).2.length = 1)

/-- C5 counterexample: the claim as stated is false.  A raw event whose
kind classifies to nothing (the `_ => continue` arm, e.g. an access
event) on a fresh `.md` path records the current time but emits zero
events, not one. -/
theorem watcherClaimC5_false : ¬ watcherClaimC5 := by
  intro h
  have h2 := (h .other "a.md".data 0 [] (by decide)).2 (by
    intro last hl
    simp [lookupD] at hl)
  have hlen : (watchStep .other "a.md".data 0 []).2.length = 0 := by decide
  rw [hlen] at h2
  exact absurd h2.2 (by omega)

/-- C5 (amended).  Per-path step of the watcher for a `.md` path: if the
debounce map records a time for that exact path less than 500 ms old, the
event is suppressed and the map is unchanged; otherwise the current time is
recorded for the path and exactly one classified event is emitted when the
raw kind classifies to created/modified/deleted, and nothing is emitted
(though the time is still recorded) for any other kind.  Hence, starting
from a path with no recorded time, two modify events within 500 ms yield
exactly one emission, and two events 600 ms apart yield two. -/
theorem watcher_step_debounce :
    (∀ (kind : RawKind) (path : List Char) (now : Nat) (m : DebMap) (last : Nat),
       isMdName path = true → lookupD m path = some last → now - last < 500 →
       watchStep kind path now m = (m, [])) ∧
    (∀ (kind : RawKind) (path : List Char) (now : Nat) (m : DebMap),
       isMdName path = true →
       (lookupD m path = none ∨ ∃ last, lookupD m path = some last ∧ 500 ≤ now - last) →
       lookupD (watchStep kind path now m).1 path = some now ∧
       (watchStep kind path now m).2 =
         (match classify kind with
          | some k => [⟨k, path⟩]
          | none => [])) ∧
    (∀ (path : List Char) (m : DebMap) (t₁ t₂ : Nat),
       isMdName path = true → lookupD m path = none → t₂ - t₁ < 500 →
       (watchStep .modify path t₁ m).2.length +
         (watchStep .modify path t₂ (watchStep .modify path t₁ m).1).2.length = 1) ∧
    (∀ (path : List Char) (m : DebMap) (t₁ t₂ : Nat),
       isMdName path = true → lookupD m path = none → t₂ = t₁ + 600 →
       (watchStep .modify path t₁ m).2.length = 1 ∧
       (watchStep .modify path t₂ (watchStep .modify path t₁ m).1).2.length = 1) := by
  have hsupp : ∀ (kind : RawKind) (path : List Char) (now : Nat) (m : DebMap)
      (last : Nat), isMdName path = true → lookupD m path = some last →
      now - last < 500 → watchStep kind path now m = (m, []) := by
    intro kind path now m last hmd hl hlt
    unfold watchStep
    rw [hmd]
    simp only [Bool.true_eq_false, if_false, hl, decide_eq_true_eq]
    rw [if_pos hlt]
  have hemit : ∀ (kind : RawKind) (path : List Char) (now : Nat) (m : DebMap),
      isMdName path = true →
      (lookupD m path = none ∨ ∃ last, lookupD m path = some last ∧ 500 ≤ now - last) →
      watchStep kind path now m =
        ((path, now) :: m,
         (match classify kind with
          | some k => [⟨k, path⟩]
          | none => [])) := by
    intro kind path now m hmd hfresh
    unfold watchStep
    rw [hmd]
    simp only [Bool.true_eq_false, if_false]
    have hs : (match lookupD m path with
        | some last => decide (now - last < 500)
        | none => false) = false := by
      rcases hfresh with hn | ⟨last, hl, hge⟩
      · rw [hn]
      · rw [hl]
        exact decide_eq_false (by omega)
    rw [hs]
    simp only [Bool.false_eq_true, if_false]
    cases kind <;> rfl
  have hlook : ∀ (path : List Char) (now : Nat) (m : DebMap),
      lookupD ((path, now) :: m) path = some now := by
    intro path now m
    simp [lookupD, List.find?]
  refine ⟨hsupp, ?_, ?_, ?_⟩
  · intro kind path now m hmd hfresh
    rw [hemit kind path now m hmd hfresh]
    exact ⟨hlook path now m, rfl⟩
  · intro path m t₁ t₂ hmd hfresh hlt
    have h1 := hemit .modify path t₁ m hmd (Or.inl hfresh)
    rw [h1]
    have h2 := hsupp .modify path t₂ ((path, t₁) :: m) t₁ hmd (hlook path t₁ m) hlt
    rw [h2]
    rfl
  · intro path m t₁ t₂ hmd hfresh ht
    have h1 := hemit .modify path t₁ m hmd (Or.inl hfresh)
    rw [h1]
    have h2 := hemit .modify path t₂ ((path, t₁) :: m) hmd
      (Or.inr ⟨t₁, hlook path t₁ m, by omega⟩)
    rw [h2]
    exact ⟨rfl, rfl⟩

/-- Witness for C5: concretely, on a fresh path `a.md`, modify events at
100 ms and 400 ms yield one emission in total, and the two-events-600ms
part at 100 ms and 700 ms yields one emission each. -/
theorem watcher_step_debounce_witness :
    ((watchStep .modify "a.md".data 100 []).2.length +
       (watchStep .modify "a.md".data 400 (watchStep .modify "a.md".data 100 []).1).2.length = 1) ∧
    ((watchStep .modify "a.md".data 100 []).2.length = 1 ∧
       (watchStep .modify "a.md".data 700 (watchStep .modify "a.md".data 100 []).1).2.length = 1) :=
  ⟨watcher_step_debounce.2.2.1 "a.md".data [] 100 400 (by decide) rfl (by omega),
   watcher_step_debounce.2.2.2 "a.md".data [] 100 700 (by decide) rfl rfl⟩

/-- Result of the per-line analysis of `extract_title` on a line that is
not effectively empty: a qualifying heading yields its trimmed remainder,
anything else the first 50 characters of the trimmed line. -/
def lineTitle (line : List Char) : List Char :=
  let trimmed := rustTrim line
  if ['#', ' '].isPrefixOf trimmed then
    if is_effectively_empty (rustTrim (trimmed.drop 2)) = false then
      rustTrim (trimmed.drop 2)
    else trimmed.take 50
  else trimmed.take 50

theorem eff_empty_false_of_hash_head {t : List Char}
    (h : ['#', ' '].isPrefixOf t = true) : is_effectively_empty t = false := by
  obtain ⟨u, hu⟩ := List.isPrefixOf_iff_prefix.mp h
  subst hu
  rfl

theorem extractTitleGo_cons_empty {l : List Char} (ls : List (List Char))
    (h : is_effectively_empty (rustTrim l) = true) :
    extractTitleGo (l :: ls) = extractTitleGo ls := by
  show (if ['#', ' '].isPrefixOf (rustTrim l) then _ else _) = _
  by_cases hp : ['#', ' '].isPrefixOf (rustTrim l) = true
  · exact absurd (eff_empty_false_of_hash_head hp) (by simp [h])
  · rw [if_neg hp, if_neg (by simp [h])]

theorem extractTitleGo_cons_nonempty {l : List Char} (ls : List (List Char))
    (h : is_effectively_empty (rustTrim l) = false) :
    extractTitleGo (l :: ls) = lineTitle l := by
  show (if ['#', ' '].isPrefixOf (rustTrim l) then _ else _) = _
  unfold lineTitle
  by_cases hp : ['#', ' '].isPrefixOf (rustTrim l) = true
  · rw [if_pos hp, if_pos hp]
    by_cases ht : is_effectively_empty (rustTrim ((rustTrim l).drop 2)) = false
    · rw [if_pos ht, if_pos ht]
    · rw [if_neg ht, if_neg ht, if_pos h]
  · rw [if_neg hp, if_neg hp, if_pos h]

theorem extractTitleGo_eq_find (ls : List (List Char)) :
    extractTitleGo ls =
      match ls.find? (fun l => !(is_effectively_empty (rustTrim l))) with
      | some line => lineTitle line
      | none => "Untitled".data := by
  induction ls with
  | nil => rfl
  | cons l ls ih =>
    by_cases he : is_effectively_empty (rustTrim l) = true
    · rw [extractTitleGo_cons_empty ls he, ih,
        List.find?_cons_of_neg _ (by rw [he]; exact fun hc => by simp at hc)]
    · have he' : is_effectively_empty (rustTrim l) = false := by
        cases hh : is_effectively_empty (rustTrim l)
        · rfl
        · exact absurd hh he
      rw [extractTitleGo_cons_nonempty ls he',
        List.find?_cons_of_pos _ (by rw [he']; rfl)]

/-- Claim C2 exactly as stated: the first line anywhere whose trim starts
with `"# "` and whose remainder is not effectively empty takes priority as
the title; only when no heading qualifies is the first non-effectively-
empty line (trimmed, truncated to 50 characters) used; `"Untitled"`
otherwise. -/
def extractTitleClaimC2 (content : List Char) : List Char :=
  let ls := linesOf content
  match ls.find? (fun l =>
      ['#', ' '].isPrefixOf (rustTrim l) &&
        !(is_effectively_empty (rustTrim ((rustTrim l).drop 2)))) with
  | some l => rustTrim ((rustTrim l).drop 2)
  | none =>
    match ls.find? (fun l => !(is_effectively_empty (rustTrim l))) with
    | some l => (rustTrim l).take 50
    | none => "Untitled".data

/-- C2 counterexample: on content whose first line is plain text and whose
second line is a qualifying heading, the claim as stated picks the later
heading, but the code stops at the first non-effectively-empty line. -/
theorem extract_title_claimC2_counterexample :
    extract_title "x\n# Hello".data = "x".data ∧
    extractTitleClaimC2 "x\n# Hello".data = "Hello".data ∧
    extract_title "x\n# Hello".data ≠ extractTitleClaimC2 "x\n# Hello".data := by
  refine ⟨by decide, by decide, by decide⟩

/-- C2 (amended).  `extract_title` scans lines in order and is decided by
the FIRST line that is not effectively empty: if that line (after trim)
starts with `"# "` and its remainder (after trim) is not effectively
empty, the trimmed remainder is the title; otherwise that line's trim
truncated to 50 characters; if every line is effectively empty (whitespace,
U+00A0 or U+FEFF only), the title is `"Untitled"`.  In particular content
whose first line is `"# Hello"` yields `"Hello"`, and content consisting
only of newlines, no-break-spaces and spaces yields `"Untitled"`. -/
theorem extract_title_first_meaningful_line :
    (∀ content : List Char,
       extract_title content =
         match (linesOf content).find?
             (fun l => !(is_effectively_empty (rustTrim l))) with
         | some line => lineTitle line
         | none => "Untitled".data) ∧
    (∀ (content : List Char) (rest : List (List Char)),
       linesOf content = "# Hello".data :: rest →
       extract_title content = "Hello".data) ∧
    extract_title "\n \n  \n".data = "Untitled".data := by
  refine ⟨fun content => extractTitleGo_eq_find (linesOf content), ?_, by decide⟩
  intro content rest hl
  unfold extract_title
  rw [hl, extractTitleGo_cons_nonempty rest (by decide)]
  decide

/-- Witness for C2: a concrete content whose first line is `"# Hello"`
yields title `"Hello"`, by the middle conjunct of the theorem. -/
theorem extract_title_first_meaningful_line_witness :
    extract_title "# Hello\nworld".data = "Hello".data :=
  extract_title_first_meaningful_line.2.1 "# Hello\nworld".data
    ["world".data] (by decide)

theorem scoreStep_eq (tl cl : List Char) (b : Nat) (w : List Char)
    (hlen : ¬ utf8Len w < 2) :
    scoreStep tl cl b w =
      b + ((if containsSub tl w then 20 else 0) +
        (if containsSub cl w then 5 else 0)) := by
  unfold scoreStep
  rw [if_neg hlen]
  cases h20 : containsSub tl w <;> cases h5 : containsSub cl w <;>
    (simp only [h20, h5, Bool.false_eq_true, if_true, if_false]; try omega)

theorem scoreStep_skip (tl cl : List Char) (b : Nat) (w : List Char)
    (hlen : utf8Len w < 2) : scoreStep tl cl b w = b := by
  unfold scoreStep
  rw [if_pos hlen]

theorem score_foldl_eq_sum (tl cl : List Char) :
    ∀ (ws : List (List Char)) (b : Nat),
      ws.foldl (scoreStep tl cl) b
      = b + ((ws.filter fun w => decide (2 ≤ utf8Len w)).map
          (fun w => (if containsSub tl w then 20 else 0) +
            (if containsSub cl w then 5 else 0))).sum := by
  intro ws
  induction ws with
  | nil => intro b; simp
  | cons w ws ih =>
    intro b
    rw [List.foldl_cons]
    by_cases hlen : utf8Len w < 2
    · rw [scoreStep_skip tl cl b w hlen, ih b,
        List.filter_cons_of_neg (by simp; omega)]
    · rw [scoreStep_eq tl cl b w hlen,
        List.filter_cons_of_pos (by simp; omega), List.map_cons, List.sum_cons,
        ih]
      omega

/-- C3 (confirmed).  For every lowercase function (the model is parametric
in `to_lowercase`), query, title and content, the score is the title-level
bonus — +100 for an equal lowered title, else +50 for a lowered title
containing the lowered query, else +40 for a lowered title starting with
it, else 0, mutually exclusive by the if/else chain — plus, cumulatively
and independently of that bonus, for every whitespace-delimited word of
the lowered query of byte length at least 2, +20 when the word occurs in
the lowered title plus +5 when it occurs in the lowered content. -/
theorem calculate_score_characterization :
    ∀ (lower : List Char → List Char) (query title content : List Char),
      calculate_score lower query title content =
        (if lower title = lower query then 100
         else if containsSub (lower title) (lower query) then 50
         else if (lower query).isPrefixOf (lower title) then 40
         else 0)
        + (((splitWs (lower query)).filter fun w => decide (2 ≤ utf8Len w)).map
            (fun w => (if containsSub (lower title) w then 20 else 0) +
              (if containsSub (lower content) w then 5 else 0))).sum := by
  intro lower query title content
  unfold calculate_score
  exact score_foldl_eq_sum (lower title) (lower content) (splitWs (lower query)) _

theorem foldl_collectStep {B : Type} (f : DirEntry → Option B) :
    ∀ (l : List DirEntry) (acc : List B),
      l.foldl (collectStep f) acc = acc ++ l.filterMap f := by
  intro l
  induction l with
  | nil => intro acc; simp
  | cons e l ih =>
    intro acc
    rw [List.foldl_cons]
    cases hf : f e with
    | none =>
      rw [show collectStep f acc e = acc from by unfold collectStep; rw [hf],
        ih, List.filterMap_cons_none hf]
    | some x =>
      rw [show collectStep f acc e = acc ++ [x] from by unfold collectStep; rw [hf],
        ih, List.filterMap_cons_some hf, List.append_assoc]
      rfl

theorem listEntry_eq_some {e : DirEntry} {m : NoteMetadata} :
    listEntry e = some m ↔
      isMdName e.name = true ∧ ∃ c t, e.content = some c ∧ e.modified = some t ∧
        m = ⟨stemOf e.name, extract_title c, generate_preview c, t⟩ := by
  unfold listEntry
  by_cases hmd : isMdName e.name = true
  · rw [if_pos hmd]
    cases hc : e.content with
    | none => simp [hmd]
    | some c =>
      cases ht : e.modified with
      | none => simp [hmd]
      | some t => simp [hmd, eq_comm]
  · simp [hmd]

theorem list_notes_main (st : NotesState) (f : List Char)
    (hf : st.folder = some f) (hex : st.folderExists = true)
    (herr : st.readDirErr = none) :
    list_notes st = .ok ((st.entries.filterMap listEntry).insertionSort modifiedGE) := by
  unfold list_notes
  rw [hf, hex, herr, foldl_collectStep, List.nil_append]
  simp

theorem list_notes_ok_cases {st : NotesState} {res : List NoteMetadata}
    (h : list_notes st = .ok res) :
    res = [] ∨ res = (st.entries.filterMap listEntry).insertionSort modifiedGE := by
  unfold list_notes at h
  cases hfo : st.folder with
  | none => rw [hfo] at h; exact absurd h (by simp)
  | some f =>
    rw [hfo] at h
    by_cases hex : st.folderExists = false
    · rw [if_pos hex] at h
      exact Or.inl (Except.ok.inj h).symm
    · rw [if_neg hex] at h
      cases herr : st.readDirErr with
      | some e => rw [herr] at h; exact absurd h (by simp)
      | none =>
        rw [herr, foldl_collectStep, List.nil_append] at h
        exact Or.inr (Except.ok.inj h).symm

/-- C9 counterexample: the claim as stated (listing sorted STRICTLY
descending by modified) is false — two readable `.md` files with the same
modification second are both listed, so adjacent timestamps are equal. -/
theorem list_notes_strict_descending_false :
    ¬ (∀ (st : NotesState) (res : List NoteMetadata), list_notes st = .ok res →
        List.Pairwise (fun a b : NoteMetadata => b.modified < a.modified) res) := by
  intro h
  have h2 := h ⟨some "f".data, true, none,
      [⟨"a.md".data, some "A".data, some 5⟩,
       ⟨"b.md".data, some "B".data, some 5⟩], 0⟩
    [⟨"a".data, "A".data, [], 5⟩, ⟨"b".data, "B".data, [], 5⟩] (by decide)
  rcases List.pairwise_cons.mp h2 with ⟨h3, _⟩
  exact absurd (h3 _ (List.mem_singleton_self _)) (by decide)

/-- C9 (amended).  Listing returns `Ok` whenever a folder is configured,
it exists and the directory read succeeds; every returned metadata comes
from an entry whose extension is exactly (case-sensitively) `.md`, whose
content was readable and whose metadata call succeeded (all other entries,
directories included, are silently skipped); every such entry is included;
and the result is sorted in non-increasing (descending, not necessarily
strictly) order of modified timestamp. -/
theorem list_notes_props :
    (∀ (st : NotesState) (res : List NoteMetadata), list_notes st = .ok res →
       List.Pairwise (fun a b : NoteMetadata => b.modified ≤ a.modified) res) ∧
    (∀ (st : NotesState) (res : List NoteMetadata), list_notes st = .ok res →
       ∀ m ∈ res, ∃ e ∈ st.entries, isMdName e.name = true ∧
         ∃ c t, e.content = some c ∧ e.modified = some t ∧
           m = ⟨stemOf e.name, extract_title c, generate_preview c, t⟩) ∧
    (∀ (st : NotesState) (f : List Char), st.folder = some f →
       st.folderExists = true → st.readDirErr = none →
       ∃ res, list_notes st = .ok res ∧
         ∀ e ∈ st.entries, ∀ m, listEntry e = some m → m ∈ res) := by
  refine ⟨?_, ?_, ?_⟩
  · intro st res h
    rcases list_notes_ok_cases h with hres | hres
    · subst hres; exact List.Pairwise.nil
    · subst hres; exact List.sorted_insertionSort modifiedGE _
  · intro st res h m hm
    rcases list_notes_ok_cases h with hres | hres
    · subst hres; exact absurd hm (List.not_mem_nil m)
    · subst hres
      have hm' : m ∈ st.entries.filterMap listEntry :=
        ((List.perm_insertionSort modifiedGE _).mem_iff).mp hm
      rcases List.mem_filterMap.mp hm' with ⟨e, he, hfe⟩
      rcases listEntry_eq_some.mp hfe with ⟨hmd, c, t, hc, ht, hmeq⟩
      exact ⟨e, he, hmd, c, t, hc, ht, hmeq⟩
  · intro st f hf hex herr
    refine ⟨_, list_notes_main st f hf hex herr, ?_⟩
    intro e he m hm
    exact ((List.perm_insertionSort modifiedGE _).mem_iff).mpr
      (List.mem_filterMap.mpr ⟨e, he, hm⟩)

/-- Witness for C9: the concrete listing of a folder holding `a.md`
(modified 5) and `d.md` (modified 7) is sorted non-increasingly. -/
theorem list_notes_props_witness :
    List.Pairwise (fun a b : NoteMetadata => b.modified ≤ a.modified)
      [⟨"d".data, "D".data, [], 7⟩, ⟨"a".data, "A".data, [], 5⟩] :=
  list_notes_props.1
    ⟨some "f".data, true, none,
      [⟨"a.md".data, some "A".data, some 5⟩,
       ⟨"d.md".data, some "D".data, some 7⟩], 0⟩
    [⟨"d".data, "D".data, [], 7⟩, ⟨"a".data, "A".data, [], 5⟩] (by decide)

theorem searchEntry_eq_some {q : List Char} {e : DirEntry} {r : SearchResult} :
    searchEntry q e = some r ↔
      isMdName e.name = true ∧ ∃ c m, e.content = some c ∧ e.modified = some m ∧
        0 < calculate_score asciiLower q (extract_title c) c ∧
        r = ⟨stemOf e.name, extract_title c, generate_preview c, m,
             calculate_score asciiLower q (extract_title c) c⟩ := by
  unfold searchEntry
  by_cases hmd : isMdName e.name = true
  · rw [if_pos hmd]
    cases hc : e.content with
    | none => simp [hmd]
    | some c =>
      by_cases hs : 0 < calculate_score asciiLower q (extract_title c) c
      · cases ht : e.modified with
        | none => simp [hmd, hs]
        | some m => simp [hmd, hs, eq_comm]
      · simp [hmd, hs]
  · simp [hmd]

theorem search_notes_main (q : List Char) (st : NotesState) (f : List Char)
    (hq : ¬ rustTrim q = []) (hf : st.folder = some f)
    (hex : st.folderExists = true) (herr : st.readDirErr = none) :
    search_notes q st =
      .ok (((st.entries.filterMap (searchEntry q)).insertionSort scoreGE).take 20) := by
  unfold search_notes
  rw [if_neg hq, hf, hex, herr, foldl_collectStep, List.nil_append]
  simp

theorem search_notes_ok_cases {q : List Char} {st : NotesState}
    {res : List SearchResult} (h : search_notes q st = .ok res) :
    res = [] ∨
      res = ((st.entries.filterMap (searchEntry q)).insertionSort scoreGE).take 20 := by
  unfold search_notes at h
  by_cases hq : rustTrim q = []
  · rw [if_pos hq] at h
    exact Or.inl (Except.ok.inj h).symm
  · rw [if_neg hq] at h
    cases hfo : st.folder with
    | none => rw [hfo] at h; exact absurd h (by simp)
    | some f =>
      rw [hfo] at h
      by_cases hex : st.folderExists = false
      · rw [if_pos hex] at h
        exact Or.inl (Except.ok.inj h).symm
      · rw [if_neg hex] at h
        cases herr : st.readDirErr with
        | some e => rw [herr] at h; exact absurd h (by simp)
        | none =>
          rw [herr, foldl_collectStep, List.nil_append] at h
          exact Or.inr (Except.ok.inj h).symm

theorem sorted_take_top {C : List SearchResult} {c : SearchResult} (hc : c ∈ C) :
    c ∈ (C.insertionSort scoreGE).take 20 ∨
      ((C.insertionSort scoreGE).take 20).length = 20 ∧
        ∀ r ∈ (C.insertionSort scoreGE).take 20, c.score ≤ r.score := by
  have hmem : c ∈ C.insertionSort scoreGE :=
    (List.perm_insertionSort scoreGE C).mem_iff.mpr hc
  by_cases hin : c ∈ (C.insertionSort scoreGE).take 20
  · exact Or.inl hin
  · right
    have hsplit := List.take_append_drop 20 (C.insertionSort scoreGE)
    rw [← hsplit] at hmem
    have hdrop : c ∈ (C.insertionSort scoreGE).drop 20 := by
      rcases List.mem_append.mp hmem with h | h
      · exact absurd h hin
      · exact h
    have hlen : 20 < (C.insertionSort scoreGE).length := by
      by_contra hle
      push_neg at hle
      rw [List.drop_eq_nil_of_le hle] at hdrop
      exact absurd hdrop (List.not_mem_nil c)
    constructor
    · rw [List.length_take]
      omega
    · intro r hr
      have hp : List.Pairwise scoreGE (C.insertionSort scoreGE) :=
        List.sorted_insertionSort scoreGE C
      rw [← hsplit] at hp
      rcases List.pairwise_append.mp hp with ⟨_, _, hcross⟩
      exact hcross r hr c hdrop

/-- Claim C4 exactly as stated: the empty result is returned only for the
EMPTY query; every other query (whitespace-only included) runs the scoring
pipeline — exclude score ≤ 0, sort descending, truncate to 20. -/
def searchClaimC4 (query : List Char) (st : NotesState) :
    Except (List Char) (List SearchResult) :=
  if query = [] then .ok []
  else
    match st.folder with
    | none => .error noFolderMsg
    | some _ =>
      if st.folderExists = false then .ok []
      else
        match st.readDirErr with
        | some e => .error e
        | none =>
          .ok (((st.entries.filterMap (searchEntry query)).insertionSort
            scoreGE).take 20)

/-- C4 counterexample: on the whitespace-only (hence nonempty) query
consisting of three spaces, against a folder holding one note whose title
`a   b` contains three consecutive spaces (title-contains bonus +50 > 0),
the claim as stated demands that note as a result, but the code trims the
query and returns the empty list. -/
theorem search_notes_claimC4_counterexample :
    search_notes "   ".data
      ⟨some "f".data, true, none, [⟨"n.md".data, some "a   b".data, some 5⟩], 0⟩ =
      .ok [] ∧
    searchClaimC4 "   ".data
      ⟨some "f".data, true, none, [⟨"n.md".data, some "a   b".data, some 5⟩], 0⟩ =
      .ok [⟨"n".data, "a   b".data, [], 5, 50⟩] ∧
    "   ".data ≠ ([] : List Char) ∧
    search_notes "   ".data
      ⟨some "f".data, true, none, [⟨"n.md".data, some "a   b".data, some 5⟩], 0⟩ ≠
    searchClaimC4 "   ".data
      ⟨some "f".data, true, none, [⟨"n.md".data, some "a   b".data, some 5⟩], 0⟩ := by
  refine ⟨by decide, by decide, by decide, by decide⟩

/-- C4 (amended).  `search_notes` returns the empty list whenever the
TRIMMED query is empty (in particular for the empty query); on every `Ok`
result, all scores are strictly positive (score ≤ 0 excluded), the list is
sorted in non-increasing score order, and its length is at most 20; and in
the successful non-degenerate case every scored candidate either appears
or loses to a full 20-element result of no-smaller scores (top 20). -/
theorem search_notes_props :
    (∀ (q : List Char) (st : NotesState), rustTrim q = [] →
       search_notes q st = .ok []) ∧
    (∀ (q : List Char) (st : NotesState) (res : List SearchResult),
       search_notes q st = .ok res →
       (∀ r ∈ res, 0 < r.score) ∧
       List.Pairwise (fun a b : SearchResult => b.score ≤ a.score) res ∧
       res.length ≤ 20) ∧
    (∀ (q : List Char) (st : NotesState) (res : List SearchResult) (f : List Char),
       search_notes q st = .ok res → st.folder = some f →
       st.folderExists = true → st.readDirErr = none → ¬ rustTrim q = [] →
       ∀ c ∈ st.entries.filterMap (searchEntry q),
         c ∈ res ∨ (res.length = 20 ∧ ∀ r ∈ res, c.score ≤ r.score)) := by
  refine ⟨?_, ?_, ?_⟩
  · intro q st hq
    unfold search_notes
    rw [if_pos hq]
  · intro q st res h
    rcases search_notes_ok_cases h with hres | hres
    · subst hres
      exact ⟨fun r hr => absurd hr (List.not_mem_nil r), List.Pairwise.nil, by simp⟩
    · subst hres
      refine ⟨?_, ?_, ?_⟩
      · intro r hr
        have hr' : r ∈ (st.entries.filterMap (searchEntry q)).insertionSort scoreGE :=
          (List.take_sublist 20 _).mem hr
        have hr'' : r ∈ st.entries.filterMap (searchEntry q) :=
          (List.perm_insertionSort scoreGE _).mem_iff.mp hr'
        rcases List.mem_filterMap.mp hr'' with ⟨e, _, hse⟩
        rcases searchEntry_eq_some.mp hse with ⟨_, c, m, _, _, hpos, hreq⟩
        rw [hreq]
        exact hpos
      · exact List.Pairwise.sublist (List.take_sublist 20 _)
          (List.sorted_insertionSort scoreGE _)
      · rw [List.length_take]
        omega
  · intro q st res f h hf hex herr hq c hc
    have hmain := search_notes_main q st f hq hf hex herr
    rw [h] at hmain
    have hres := (Except.ok.inj hmain)
    rw [hres]
    exact sorted_take_top hc

/-- Witness for C4: all three parts at concrete inputs — the whitespace
query returns the empty list, the `Ok` result for query `shop` on a
two-note folder has positive scores, is sorted, has length at most 20, and
its only scored candidate is among the results. -/
theorem search_notes_props_witness :
    search_notes " ".data ⟨some "f".data, true, none, [], 0⟩ = .ok [] ∧
    ((∀ r ∈ [(⟨"s".data, "Shopping List".data, [], 2, 75⟩ : SearchResult)],
        0 < r.score) ∧
     List.Pairwise (fun a b : SearchResult => b.score ≤ a.score)
       [(⟨"s".data, "Shopping List".data, [], 2, 75⟩ : SearchResult)] ∧
     ([(⟨"s".data, "Shopping List".data, [], 2, 75⟩ : SearchResult)]).length ≤ 20) ∧
    ((⟨"s".data, "Shopping List".data, [], 2, 75⟩ : SearchResult) ∈
        [(⟨"s".data, "Shopping List".data, [], 2, 75⟩ : SearchResult)] ∨
      ([(⟨"s".data, "Shopping List".data, [], 2, 75⟩ : SearchResult)]).length = 20 ∧
        ∀ r ∈ [(⟨"s".data, "Shopping List".data, [], 2, 75⟩ : SearchResult)],
          (⟨"s".data, "Shopping List".data, [], 2, 75⟩ : SearchResult).score ≤ r.score) :=
  ⟨search_notes_props.1 " ".data ⟨some "f".data, true, none, [], 0⟩ (by decide),
   search_notes_props.2.1 "shop".data
     ⟨some "f".data, true, none,
       [⟨"r.md".data, some "Recipe Book".data, some 1⟩,
        ⟨"s.md".data, some "Shopping List".data, some 2⟩], 0⟩
     [⟨"s".data, "Shopping List".data, [], 2, 75⟩] (by decide),
   search_notes_props.2.2 "shop".data
     ⟨some "f".data, true, none,
       [⟨"r.md".data, some "Recipe Book".data, some 1⟩,
        ⟨"s.md".data, some "Shopping List".data, some 2⟩], 0⟩
     [⟨"s".data, "Shopping List".data, [], 2, 75⟩] "f".data
     (by decide) rfl rfl rfl (by decide)
     ⟨"s".data, "Shopping List".data, [], 2, 75⟩ (by decide)⟩

/-- Value of a decimal digit string, used to invert `natDigitsGo`. -/
def digitsVal (l : List Char) : Nat :=
  l.foldl (fun a c => a * 10 + (c.toNat - 48)) 0

theorem digitsVal_append (xs : List Char) (c : Char) :
    digitsVal (xs ++ [c]) = digitsVal xs * 10 + (c.toNat - 48) := by
  unfold digitsVal
  rw [List.foldl_append]
  rfl

theorem natDigitsGo_val : ∀ fuel n, n ≤ fuel →
    digitsVal (natDigitsGo fuel n) = n := by
  intro fuel
  induction fuel with
  | zero =>
    intro n h
    have : n = 0 := by omega
    subst this
    rfl
  | succ fuel ih =>
    intro n h
    unfold natDigitsGo
    by_cases h0 : n = 0
    · rw [if_pos h0, h0]
      rfl
    · have hdiv : n / 10 < n := Nat.div_lt_self (by omega) (by omega)
      rw [if_neg h0, digitsVal_append, ih (n / 10) (by omega)]
      have hm : n % 10 < 10 := Nat.mod_lt _ (by omega)
      have hc : (Char.ofNat (48 + n % 10)).toNat = 48 + n % 10 := by
        set k := n % 10 with hk
        interval_cases k <;> rfl
      rw [hc]
      omega

theorem digitsVal_natToString (n : Nat) : digitsVal (natToString n) = n := by
  unfold natToString
  by_cases h0 : n = 0
  · rw [if_pos h0, h0]
    rfl
  · rw [if_neg h0]
    exact natDigitsGo_val n n le_rfl

theorem natToString_injective : Function.Injective natToString := by
  intro a b h
  have h2 := congrArg digitsVal h
  rwa [digitsVal_natToString, digitsVal_natToString] at h2

theorem natToString_ne_nil (n : Nat) : natToString n ≠ [] := by
  unfold natToString
  by_cases h0 : n = 0
  · rw [if_pos h0]
    simp
  · rw [if_neg h0]
    cases n with
    | zero => exact absurd rfl h0
    | succ m =>
      show natDigitsGo (m + 1) (m + 1) ≠ []
      unfold natDigitsGo
      rw [if_neg (by omega)]
      simp

theorem candAt_injective (base : List Char) : Function.Injective (candAt base) := by
  intro i j h
  have hlen1 : ∀ k, 1 ≤ (natToString k).length := by
    intro k
    have := natToString_ne_nil k
    cases hnk : natToString k
    · exact absurd hnk this
    · simp
  match i, j with
  | 0, 0 => rfl
  | 0, j + 1 =>
    exfalso
    have hlen := congrArg List.length h
    simp only [candAt, candS, List.length_append, List.length_cons] at hlen
    have := hlen1 (j + 1)
    omega
  | i + 1, 0 =>
    exfalso
    have hlen := congrArg List.length h
    simp only [candAt, candS, List.length_append, List.length_cons] at hlen
    have := hlen1 (i + 1)
    omega
  | i + 1, j + 1 =>
    have h2 : ('-' :: natToString (i + 1)) = ('-' :: natToString (j + 1)) :=
      List.append_cancel_left (h : candS base (i + 1) = candS base (j + 1))
    have h3 : natToString (i + 1) = natToString (j + 1) := by
      injection h2
    have := natToString_injective h3
    omega

/-- The collision loop of `save_note`/`create_note` always finds a free id
within `entries.length + 1` steps: the candidates are pairwise distinct, so
they cannot all collide with finitely many existing names. -/
theorem allocateId_hasFile_ne_none (st : NotesState) (base : List Char) :
    allocateId base (fun cand => hasFile st (cand ++ mdExt))
      (st.entries.length + 1) ≠ none := by
  intro hnone
  have hall : ∀ j, j ≤ st.entries.length + 1 →
      hasFile st (candAt base j ++ mdExt) = true := by
    intro j hj
    exact allocGo_none_all (st.entries.length + 1) 0 hnone j (Nat.zero_le j) (by omega)
  have hsub : ((List.range (st.entries.length + 2)).map
      (fun j => candAt base j ++ mdExt)) ⊆ st.entries.map (·.name) := by
    intro x hx
    rcases List.mem_map.mp hx with ⟨j, hj, rfl⟩
    have hjle : j ≤ st.entries.length + 1 := by
      have := List.mem_range.mp hj
      omega
    rcases (hasFile_iff st _).mp (hall j hjle) with ⟨e, he, hname⟩
    exact List.mem_map.mpr ⟨e, he, hname⟩
  have hnodup : ((List.range (st.entries.length + 2)).map
      (fun j => candAt base j ++ mdExt)).Nodup := by
    refine List.Nodup.map ?_ (List.nodup_range _)
    intro a b hab
    exact candAt_injective base (List.append_cancel_right hab)
  have hlen := List.Subperm.length_le (List.subperm_of_subset hnodup hsub)
  rw [List.length_map, List.length_range, List.length_map] at hlen
  omega

theorem allocateId_some_not_ex {base : List Char} {ex : List Char → Bool}
    {fuel : Nat} {found : List Char} (h : allocateId base ex fuel = some found) :
    ex found = false := by
  unfold allocateId at h
  exact allocGo_some_not_ex _ _ _ h

theorem findFile_writeFile_fresh (st : NotesState) (name content : List Char)
    (h : hasFile st name = false) :
    findFile (writeFile st name content) name =
      some ⟨name, some content, some st.nowSecs⟩ := by
  unfold writeFile
  rw [if_neg (by rw [h]; simp)]
  show (st.entries ++ [(⟨name, some content, some st.nowSecs⟩ : DirEntry)]).find?
      (fun e => decide (e.name = name)) =
    some (⟨name, some content, some st.nowSecs⟩ : DirEntry)
  rw [List.find?_append]
  have h1 : List.find? (fun e => decide (e.name = name)) st.entries = none := by
    unfold hasFile findFile at h
    cases hf : List.find? (fun e => decide (e.name = name)) st.entries
    · rfl
    · rw [hf] at h
      simp at h
  rw [h1]
  simp [List.find?]

/-- C8 (confirmed).  With a notes folder configured, saving with no id and
content `"# Foo\n\nbar"` always succeeds (the id-collision loop terminates
on a fresh id), and reading back the returned id yields a note whose
content is exactly the saved content and whose title is the recomputed
`"Foo"`. -/
theorem save_then_read_round_trip :
    ∀ (st : NotesState) (folder : List Char), st.folder = some folder →
      ∃ note st', save_note none "# Foo\n\nbar".data st = .ok (note, st') ∧
        ∃ found, read_note note.id st' = .ok found ∧
          found.content = "# Foo\n\nbar".data ∧ found.title = "Foo".data := by
  intro st folder hf
  have hne := allocateId_hasFile_ne_none st
    (sanitize_filename (extract_title "# Foo\n\nbar".data))
  obtain ⟨noteId, hid⟩ := Option.ne_none_iff_exists'.mp hne
  have hfree0 := allocateId_some_not_ex hid
  have hfree : hasFile st (noteId ++ mdExt) = false := hfree0
  have hsave : save_note none "# Foo\n\nbar".data st =
      .ok (⟨noteId, extract_title "# Foo\n\nbar".data, "# Foo\n\nbar".data,
            joinPath folder (noteId ++ mdExt), st.nowSecs⟩,
           writeFile st (noteId ++ mdExt) "# Foo\n\nbar".data) := by
    unfold save_note
    rw [hf]
    show (match allocateId (sanitize_filename (extract_title "# Foo\n\nbar".data))
        (fun cand => hasFile st (cand ++ mdExt)) (st.entries.length + 1) with
      | none => (Except.error "id allocation fuel exhausted".data :
          Except (List Char) (Note × NotesState))
      | some noteId =>
        Except.ok ((⟨noteId, extract_title "# Foo\n\nbar".data, "# Foo\n\nbar".data,
            joinPath folder (noteId ++ mdExt), st.nowSecs⟩ : Note),
          writeFile st (noteId ++ mdExt) "# Foo\n\nbar".data)) =
      Except.ok ((⟨noteId, extract_title "# Foo\n\nbar".data, "# Foo\n\nbar".data,
          joinPath folder (noteId ++ mdExt), st.nowSecs⟩ : Note),
        writeFile st (noteId ++ mdExt) "# Foo\n\nbar".data)
    rw [hid]
  have hffold : (writeFile st (noteId ++ mdExt) "# Foo\n\nbar".data).folder =
      some folder := by
    rw [writeFile_folder, hf]
  have hfind := findFile_writeFile_fresh st (noteId ++ mdExt) "# Foo\n\nbar".data hfree
  have hread : read_note noteId (writeFile st (noteId ++ mdExt) "# Foo\n\nbar".data) =
      .ok ⟨noteId, extract_title "# Foo\n\nbar".data, "# Foo\n\nbar".data,
           joinPath folder (noteId ++ mdExt), st.nowSecs⟩ := by
    unfold read_note
    rw [hffold, hfind]
  refine ⟨_, _, hsave, _, hread, rfl, ?_⟩
  show extract_title "# Foo\n\nbar".data = "Foo".data
  decide

/-- Witness for C8: the round trip at the concrete empty folder state. -/
theorem save_then_read_round_trip_witness :
    ∃ note st', save_note none "# Foo\n\nbar".data
        ⟨some "f".data, true, none, [], 42⟩ = .ok (note, st') ∧
      ∃ found, read_note note.id st' = .ok found ∧
        found.content = "# Foo\n\nbar".data ∧ found.title = "Foo".data :=
  save_then_read_round_trip ⟨some "f".data, true, none, [], 42⟩ "f".data rfl
